import Mathlib

/-!
# OAuth2Client: data model and projection to the Hydra payload

Shallow embedding of `api/v1alpha1/oauth2client_types.go`.

* Go strings are Lean `String`s; the named string types `GrantType` and
  `ResponseType` are one-field structures whose field is the underlying string,
  so the conversion `string(elem)` is the field projection.
* A `*string` is an `Option String` (`none` is the nil pointer).
* A slice value is an `Option (List α)`: `none` is the nil slice, `some xs` a
  non-nil slice holding `xs` (so `some []` is the non-nil empty slice).
* Run-time panics (an index out of range in `output[i] = ...`) are the error
  side of `Except Panic`; that the projection never panics is proved, not
  assumed.

The value-level model above is what the claims about the content of the payload
are stated on. The namespace `Mem` holds a second, memory-level model of the same
functions, with slice headers, addresses and an explicit heap; it is related to
the value-level model by `Mem.ToOAuth2ClientJSON_effect`, and it is where the
claims about what a call leaves unchanged and about repeated calls are stated.
-/

namespace V1alpha1

/-! ## Go values -/

/-- A Go slice as a value: `none` is the nil slice, `some xs` is a non-nil slice
whose elements, in order, are `xs`. -/
abbrev Slice (α : Type) := Option (List α)

/-- Go `len(s)`: a nil slice has length 0. -/
def Slice.len {α : Type} : Slice α → Nat
  | none => 0
  | some xs => xs.length

/-- The elements a `for ... range s` visits, in order: none for a nil slice. -/
def Slice.elems {α : Type} : Slice α → List α
  | none => []
  | some xs => xs

/-- Go `s[i]` as a partial read: `none` when `i` is out of range. -/
def Slice.index {α : Type} (s : Slice α) (i : Nat) : Option α :=
  s.elems.get? i

/-- Go `s == nil`. -/
def Slice.isNil {α : Type} : Slice α → Bool
  | none => true
  | some _ => false

/-- The run-time panics the modelled statements can raise. `danglingReference`
is not a Go panic: it is what the memory-level model answers on a heap no Go
program can build (a slice header or pointer that refers to nothing). -/
inductive Panic where
  | indexOutOfRange (i : Nat) (len : Nat)
  | nilDereference
  | danglingReference
  deriving DecidableEq, Repr

/-- Go `make([]string, n)`: a fresh non-nil slice of `n` zero values; the zero
value of `string` is the empty string. -/
def makeStrings (n : Nat) : List String :=
  List.replicate n ""

/-- Go `output[i] = v` on a slice with elements `output`: panics when `i` is not
below the length, else overwrites position `i`. -/
def assignIndex (output : List String) (i : Nat) (v : String) :
    Except Panic (List String) :=
  if i < output.length then .ok (output.set i v)
  else .error (.indexOutOfRange i output.length)

/-- Go `for i, elem := range xs { body }` over the elements `xs`, started at
index `i`: the body runs once per element, in order, with the running index,
threading the state `s`; a panic in the body ends the loop. -/
def rangeLoop {α σ : Type} (body : Nat → α → σ → Except Panic σ) :
    Nat → List α → σ → Except Panic σ
  | _, [], s => .ok s
  | i, x :: xs, s =>
    match body i x s with
    | .ok s1 => rangeLoop body (i + 1) xs s1
    | .error e => .error e

/-! ## Data model -/

/-- Go `type GrantType string`. The kubebuilder enum marker is a schema
annotation, not a constraint of the type: any string is a `GrantType`. -/
structure GrantType where
  val : String
  deriving DecidableEq, Repr

/-- Go `type ResponseType string`. -/
structure ResponseType where
  val : String
  deriving DecidableEq, Repr

/-- The values listed by the marker `Enum=client_credentials;authorization_code;implicit;refresh_token`. -/
def grantTypeEnum : List String :=
  ["client_credentials", "authorization_code", "implicit", "refresh_token"]

/-- The values listed by the marker `Enum=id_token;code;token`. -/
def responseTypeEnum : List String :=
  ["id_token", "code", "token"]

/-- Go `OAuth2ClientSpec`: the desired state of an OAuth2Client. -/
structure OAuth2ClientSpec where
  GrantTypes : Slice GrantType
  ResponseTypes : Slice ResponseType
  Scope : String
  deriving DecidableEq, Repr

/-- Go `OAuth2ClientStatus`: the observed state of an OAuth2Client. -/
structure OAuth2ClientStatus where
  Secret : Option String
  ClientID : Option String
  ObservedGeneration : Int
  deriving DecidableEq, Repr

/-- Modelled from the spec: `metav1.TypeMeta` is declared in the Kubernetes
library, not in the sources; it carries the kind and API version of the
object. -/
structure TypeMeta where
  Kind : String
  APIVersion : String
  deriving DecidableEq, Repr

/-- Modelled from the spec: `metav1.ObjectMeta` is declared in the Kubernetes
library, not in the sources. The spec names it "identity metadata (name,
namespace, generation counter, etc.)"; `Name` is the field the promoted selector
`c.Name` reads. -/
structure ObjectMeta where
  Name : String
  GenerateName : String
  Namespace : String
  UID : String
  ResourceVersion : String
  Generation : Int
  Labels : List (String × String)
  Annotations : List (String × String)
  deriving DecidableEq, Repr

/-- Go `OAuth2Client`: the resource, with its embedded type and object
metadata, its Spec and its Status. -/
structure OAuth2Client where
  TypeMeta : TypeMeta
  ObjectMeta : ObjectMeta
  Spec : OAuth2ClientSpec
  Status : OAuth2ClientStatus
  deriving DecidableEq, Repr

/-- Go `c.Name`: the selector is promoted from the embedded `ObjectMeta`. -/
def OAuth2Client.Name (c : OAuth2Client) : String :=
  c.ObjectMeta.Name

/-- Modelled from the spec: `hydra.OAuth2ClientJSON` is declared in package
`hydra`, which is not among the sources. The fields are the five the composite
literal in `ToOAuth2ClientJSON` sets, with the types of the expressions assigned
to them, as in the spec's outbound payload record `{name: string, clientID:
optional string, grantTypes: ordered string sequence, responseTypes: ordered
string sequence, scope: string}`. -/
structure OAuth2ClientJSON where
  Name : String
  ClientID : Option String
  GrantTypes : Slice String
  ResponseTypes : Slice String
  Scope : String
  deriving DecidableEq, Repr

/-! ## The projection -/

/-- Go `responseToStringSlice`: allocate `len(rt)` strings, then write
`string(elem)` at each index of the range loop. -/
def responseToStringSlice (rt : Slice ResponseType) : Except Panic (Slice String) :=
  let output := makeStrings rt.len
  match rangeLoop (fun i elem out => assignIndex out i elem.val) 0 rt.elems output with
  | .ok out => .ok (some out)
  | .error e => .error e

/-- Go `grantToStringSlice`: allocate `len(gt)` strings, then write
`string(elem)` at each index of the range loop. -/
def grantToStringSlice (gt : Slice GrantType) : Except Panic (Slice String) :=
  let output := makeStrings gt.len
  match rangeLoop (fun i elem out => assignIndex out i elem.val) 0 gt.elems output with
  | .ok out => .ok (some out)
  | .error e => .error e

/-- Go `(c *OAuth2Client) ToOAuth2ClientJSON()`, for a non-nil receiver: the
composite literal, its two calls evaluated in source order. The result is the
payload the returned pointer refers to. -/
def ToOAuth2ClientJSON (c : OAuth2Client) : Except Panic OAuth2ClientJSON :=
  match grantToStringSlice c.Spec.GrantTypes with
  | .error e => .error e
  | .ok gts =>
    match responseToStringSlice c.Spec.ResponseTypes with
    | .error e => .error e
    | .ok rts =>
      .ok {
        Name := c.Name
        ClientID := c.Status.ClientID
        GrantTypes := gts
        ResponseTypes := rts
        Scope := c.Spec.Scope }

/-! ## Memory-level model

The same code with Go's reference semantics made explicit: slices are headers
into backing arrays, `*string` values and the receiver are addresses, and every
function threads the heap. This is the model in which "the call does not change
the envelope" and "two calls give equal payloads" are statements about the code
rather than about the shape of a pure function. -/

namespace Mem

/-- A non-nil Go slice value: the backing array it points into, the offset of
its first element in that array, its length and its capacity. -/
structure SliceHeader where
  arr : Nat
  off : Nat
  len : Nat
  cap : Nat
  deriving DecidableEq, Repr

/-- Go `OAuth2ClientSpec` as stored: slice fields are headers (`none` is nil). -/
structure OAuth2ClientSpec where
  GrantTypes : Option SliceHeader
  ResponseTypes : Option SliceHeader
  Scope : String
  deriving DecidableEq, Repr

/-- Go `OAuth2ClientStatus` as stored: `*string` fields are addresses of string
variables (`none` is nil). -/
structure OAuth2ClientStatus where
  Secret : Option Nat
  ClientID : Option Nat
  ObservedGeneration : Int
  deriving DecidableEq, Repr

/-- Go `OAuth2Client` as stored. -/
structure OAuth2Client where
  TypeMeta : TypeMeta
  ObjectMeta : ObjectMeta
  Spec : OAuth2ClientSpec
  Status : OAuth2ClientStatus
  deriving DecidableEq, Repr

/-- Go `c.Name`, promoted from the embedded `ObjectMeta`. -/
def OAuth2Client.Name (c : OAuth2Client) : String :=
  c.ObjectMeta.Name

/-- Modelled from the spec: `hydra.OAuth2ClientJSON` as stored (see
`V1alpha1.OAuth2ClientJSON`), the pointer and slice fields as references. -/
structure OAuth2ClientJSON where
  Name : String
  ClientID : Option Nat
  GrantTypes : Option SliceHeader
  ResponseTypes : Option SliceHeader
  Scope : String
  deriving DecidableEq, Repr

/-- The heap: backing arrays of slices (elements of `[]GrantType`,
`[]ResponseType` and `[]string` all have underlying type string), string
variables that `*string` values point to, and the allocated `OAuth2Client` and
`OAuth2ClientJSON` structs. An address is an index into the respective list. -/
structure Heap where
  arrays : List (List String)
  strings : List String
  clients : List OAuth2Client
  payloads : List OAuth2ClientJSON
  deriving DecidableEq, Repr

/-- Go `len(s)` of a slice value. -/
def len : Option SliceHeader → Nat
  | none => 0
  | some s => s.len

/-- Go `make([]string, n)`: allocates a new backing array of `n` empty strings
and returns a header covering all of it. -/
def Heap.makeStrings (h : Heap) (n : Nat) : Heap × SliceHeader :=
  ({ h with arrays := h.arrays ++ [List.replicate n ""] },
   { arr := h.arrays.length, off := 0, len := n, cap := n })

/-- Go `s[i]` as a read: bounds-checked against the length of `s`. -/
def Heap.readElem (h : Heap) (s : SliceHeader) (i : Nat) : Except Panic String :=
  if i < s.len then
    match h.arrays.get? s.arr with
    | none => .error .danglingReference
    | some a =>
      match a.get? (s.off + i) with
      | none => .error .danglingReference
      | some v => .ok v
  else .error (.indexOutOfRange i s.len)

/-- Go `s[i] = v`: bounds-checked against the length of `s`, it overwrites one
element of the backing array of `s`. -/
def Heap.writeElem (h : Heap) (s : SliceHeader) (i : Nat) (v : String) : Except Panic Heap :=
  if i < s.len then
    match h.arrays.get? s.arr with
    | none => .error .danglingReference
    | some a =>
      if s.off + i < a.length then
        .ok { h with arrays := h.arrays.set s.arr (a.set (s.off + i) v) }
      else .error .danglingReference
  else .error (.indexOutOfRange i s.len)

/-- The iterations `i, i+1, ..., i+n-1` of `for i, elem := range s { body }`:
each one reads `s[i]` from the heap as it is then, and runs the body. -/
def rangeFrom (body : Nat → String → Heap → Except Panic Heap) (s : SliceHeader) :
    Nat → Nat → Heap → Except Panic Heap
  | _, 0, h => .ok h
  | i, n + 1, h =>
    match h.readElem s i with
    | .error e => .error e
    | .ok elem =>
      match body i elem h with
      | .error e => .error e
      | .ok h1 => rangeFrom body s (i + 1) n h1

/-- Go `for i, elem := range s { body }`: the range expression is evaluated
once, so the header and the number of iterations are fixed on entry; a nil slice
gives no iteration. -/
def rangeLoop (body : Nat → String → Heap → Except Panic Heap) :
    Option SliceHeader → Heap → Except Panic Heap
  | none, h => .ok h
  | some s, h => rangeFrom body s 0 s.len h

/-- Go `responseToStringSlice` on the heap. -/
def responseToStringSlice (h : Heap) (rt : Option SliceHeader) :
    Except Panic (Heap × Option SliceHeader) :=
  let (h1, output) := h.makeStrings (len rt)
  match rangeLoop (fun i elem hp => hp.writeElem output i elem) rt h1 with
  | .error e => .error e
  | .ok h2 => .ok (h2, some output)

/-- Go `grantToStringSlice` on the heap. -/
def grantToStringSlice (h : Heap) (gt : Option SliceHeader) :
    Except Panic (Heap × Option SliceHeader) :=
  let (h1, output) := h.makeStrings (len gt)
  match rangeLoop (fun i elem hp => hp.writeElem output i elem) gt h1 with
  | .error e => .error e
  | .ok h2 => .ok (h2, some output)

/-- Dereferencing the receiver: a nil receiver panics. -/
def Heap.loadClient (h : Heap) : Option Nat → Except Panic OAuth2Client
  | none => .error .nilDereference
  | some a =>
    match h.clients.get? a with
    | none => .error .danglingReference
    | some c => .ok c

/-- Go `(c *OAuth2Client) ToOAuth2ClientJSON()` on the heap. The operands of the
composite literal are evaluated left to right, each field of `*c` read from the
heap as it is at that point; the literal is then allocated and its address
returned. -/
def ToOAuth2ClientJSON (h : Heap) (c : Option Nat) : Except Panic (Heap × Nat) :=
  match h.loadClient c with
  | .error e => .error e
  | .ok c0 =>
    match grantToStringSlice h c0.Spec.GrantTypes with
    | .error e => .error e
    | .ok (h1, gts) =>
      match h1.loadClient c with
      | .error e => .error e
      | .ok c1 =>
        match responseToStringSlice h1 c1.Spec.ResponseTypes with
        | .error e => .error e
        | .ok (h2, rts) =>
          match h2.loadClient c with
          | .error e => .error e
          | .ok c2 =>
            .ok ({ h2 with
                    payloads := h2.payloads ++ [{
                      Name := c0.Name
                      ClientID := c0.Status.ClientID
                      GrantTypes := gts
                      ResponseTypes := rts
                      Scope := c2.Spec.Scope }] },
                 h2.payloads.length)

/-! ### Reading values back from the heap -/

/-- The elements of the slice `s`, in order, as the heap holds them. -/
def Heap.sliceElems (h : Heap) (s : SliceHeader) : List String :=
  ((h.arrays.getD s.arr []).drop s.off).take s.len

/-- The value of a slice of strings. -/
def Heap.viewSlice (h : Heap) : Option SliceHeader → Slice String
  | none => none
  | some s => some (h.sliceElems s)

/-- The value of a `*string`: nil, or the string it points to. -/
def Heap.viewPtr (h : Heap) : Option Nat → Option String
  | none => none
  | some a => some (h.strings.getD a "")

/-- The value of a stored envelope. -/
def Heap.viewClient (h : Heap) (c : OAuth2Client) : V1alpha1.OAuth2Client :=
  { TypeMeta := c.TypeMeta
    ObjectMeta := c.ObjectMeta
    Spec := {
      GrantTypes := (h.viewSlice c.Spec.GrantTypes).map (List.map GrantType.mk)
      ResponseTypes := (h.viewSlice c.Spec.ResponseTypes).map (List.map ResponseType.mk)
      Scope := c.Spec.Scope }
    Status := {
      Secret := h.viewPtr c.Status.Secret
      ClientID := h.viewPtr c.Status.ClientID
      ObservedGeneration := c.Status.ObservedGeneration } }

/-- The value of a stored payload. -/
def Heap.viewPayload (h : Heap) (p : OAuth2ClientJSON) : V1alpha1.OAuth2ClientJSON :=
  { Name := p.Name
    ClientID := h.viewPtr p.ClientID
    GrantTypes := h.viewSlice p.GrantTypes
    ResponseTypes := h.viewSlice p.ResponseTypes
    Scope := p.Scope }

/-- The value of the envelope at address `a`, when there is one. -/
def Heap.clientAt (h : Heap) (a : Nat) : Option V1alpha1.OAuth2Client :=
  (h.clients.get? a).map h.viewClient

/-- The value of the payload at address `p`, when there is one. -/
def Heap.payloadAt (h : Heap) (p : Nat) : Option V1alpha1.OAuth2ClientJSON :=
  (h.payloads.get? p).map h.viewPayload

/-! ### Well-formed references -/

/-- A slice value refers to elements that exist: it is nil, or its backing array
is allocated and holds the `len` elements from `off` on. -/
def Heap.validSlice (h : Heap) : Option SliceHeader → Bool
  | none => true
  | some s => decide (s.arr < h.arrays.length) &&
      decide (s.off + s.len ≤ (h.arrays.getD s.arr []).length)

/-- A `*string` is nil or the address of an allocated string variable. -/
def Heap.validPtr (h : Heap) : Option Nat → Bool
  | none => true
  | some a => decide (a < h.strings.length)

/-- The address `a` holds an envelope all of whose references are well formed. -/
def Heap.validClient (h : Heap) (a : Nat) : Bool :=
  match h.clients.get? a with
  | none => false
  | some c =>
    h.validSlice c.Spec.GrantTypes && h.validSlice c.Spec.ResponseTypes &&
    h.validPtr c.Status.Secret && h.validPtr c.Status.ClientID

end Mem

/-! ## The scope validation pattern

The marker `+kubebuilder:validation:Pattern=([a-zA-Z0-9\.\*]+\s?)+` on
`OAuth2ClientSpec.Scope` becomes the `pattern` keyword of the generated schema.
The regular expression is built below from the marker, piece by piece, as a
Mathlib `RegularExpression Char`; `RegularExpression.rmatch` decides whether a
whole list of characters is in its language. -/

/-- The characters of the class `[a-zA-Z0-9\.\*]`. -/
def scopeTokenChars : List Char :=
  "abcdefghijklmnopqrstuvwxyzABCDEFGHIJKLMNOPQRSTUVWXYZ0123456789.*".toList

/-- The characters of `\s` in Go regular expressions: tab, line feed, form
feed, carriage return and space. -/
def whitespaceChars : List Char :=
  [Char.ofNat 9, Char.ofNat 10, Char.ofNat 12, Char.ofNat 13, Char.ofNat 32]

/-- A character class `[...]`: the alternation of its characters. -/
def charClass : List Char → RegularExpression Char
  | [] => 0
  | c :: cs => RegularExpression.char c + charClass cs

/-- The regular expression `r+`: `r` followed by `r*`. -/
def oneOrMore (r : RegularExpression Char) : RegularExpression Char :=
  r * RegularExpression.star r

/-- The regular expression `r?`: `r` or nothing. -/
def zeroOrOne (r : RegularExpression Char) : RegularExpression Char :=
  r + 1

/-- The pattern `([a-zA-Z0-9\.\*]+\s?)+` of the marker on `Scope`. -/
def scopePattern : RegularExpression Char :=
  oneOrMore (oneOrMore (charClass scopeTokenChars) * zeroOrOne (charClass whitespaceChars))

/-- The pattern matched against the whole string, as `^(...)$` would. -/
def scopeMatchesWhole (s : String) : Bool :=
  scopePattern.rmatch s.toList

/-- The `pattern` keyword as schema validation applies it: the marker carries no
`^` or `$`, and a pattern is not anchored implicitly, so a value is accepted when
the regular expression matches some run of consecutive characters of it (some
segment `m` that starts a tail `t` of the string). -/
def scopeAccepted (s : String) : Bool :=
  s.toList.tails.any fun t => t.inits.any fun m => scopePattern.rmatch m

/-! ## Example envelopes -/

/-- The object metadata of the examples. -/
def exampleMeta : ObjectMeta :=
  { Name := "my-client", GenerateName := "", Namespace := "default", UID := "u-1",
    ResourceVersion := "7", Generation := 2, Labels := [("app", "demo")], Annotations := [] }

/-- An envelope not yet registered: `responseTypes` absent and no client
identifier in Status (scenario 2 of the spec). -/
def exampleUnregistered : OAuth2Client :=
  { TypeMeta := { Kind := "OAuth2Client", APIVersion := "hydra.ory.sh/v1alpha1" }
    ObjectMeta := exampleMeta
    Spec := { GrantTypes := some [⟨"authorization_code"⟩, ⟨"refresh_token"⟩]
              ResponseTypes := none
              Scope := "openid" }
    Status := { Secret := none, ClientID := none, ObservedGeneration := 0 } }

/-- The same envelope with a client identifier that is present and empty. -/
def exampleEmptyID : OAuth2Client :=
  { exampleUnregistered with
    Status := { exampleUnregistered.Status with ClientID := some "" } }

namespace Mem

/-- A heap holding two envelopes, at addresses 0 and 1, that are equal as values
but stored apart: their grant types lie in different arrays (the first as a
sub-slice of a longer array) and their client identifiers in different string
variables. -/
def exampleHeap : Heap :=
  { arrays := [["client_credentials", "authorization_code", "refresh_token"],
               ["authorization_code", "refresh_token"],
               ["code"]]
    strings := ["hydra-client-secret", "abc123", "abc123"]
    clients := [
      { TypeMeta := { Kind := "OAuth2Client", APIVersion := "hydra.ory.sh/v1alpha1" }
        ObjectMeta := exampleMeta
        Spec := { GrantTypes := some { arr := 0, off := 1, len := 2, cap := 2 }
                  ResponseTypes := some { arr := 2, off := 0, len := 1, cap := 1 }
                  Scope := "openid offline" }
        Status := { Secret := some 0, ClientID := some 1, ObservedGeneration := 2 } },
      { TypeMeta := { Kind := "OAuth2Client", APIVersion := "hydra.ory.sh/v1alpha1" }
        ObjectMeta := exampleMeta
        Spec := { GrantTypes := some { arr := 1, off := 0, len := 2, cap := 2 }
                  ResponseTypes := some { arr := 2, off := 0, len := 1, cap := 1 }
                  Scope := "openid offline" }
        Status := { Secret := some 0, ClientID := some 2, ObservedGeneration := 2 } }]
    payloads := [] }

end Mem

/-! ## Further example envelopes -/

/-- The unregistered example with `responseTypes` present but empty instead of
absent. -/
def exampleEmptyResponses : OAuth2Client :=
  { exampleUnregistered with
    Spec := { exampleUnregistered.Spec with ResponseTypes := some [] } }

/-- An envelope with the name, Spec and client identifier of the unregistered
example, and another API version, namespace, UID, resource version, generation,
labels, secret reference and observed generation. -/
def exampleOtherMetadata : OAuth2Client :=
  { TypeMeta := { Kind := "OAuth2Client", APIVersion := "hydra.ory.sh/v1alpha2" }
    ObjectMeta := { exampleMeta with
      Namespace := "production", UID := "u-2", ResourceVersion := "9", Generation := 5,
      Labels := [] }
    Spec := exampleUnregistered.Spec
    Status := { Secret := some "my-client-credentials", ClientID := none,
                ObservedGeneration := 4 } }

/-! ## The loop computes the element-wise map -/

/-- Writing at the index just after `pre` succeeds and replaces that element. -/
theorem assignIndex_append (pre rest : List String) (r v : String) :
    assignIndex (pre ++ r :: rest) pre.length v = .ok ((pre ++ [v]) ++ rest) := by
  unfold assignIndex
  have hlt : pre.length < (pre ++ r :: rest).length := by simp
  rw [if_pos hlt]
  congr 1
  simp [List.set_append]

/-- Loop invariant of the two conversion loops: with the first `pre.length`
positions already written and as many positions left as elements to visit, the
loop ends without a panic and the remaining positions hold the images of the
remaining elements. -/
theorem rangeLoop_assign {α : Type} (f : α → String) (xs : List α) :
    ∀ (pre rest : List String), rest.length = xs.length →
      rangeLoop (fun i elem out => assignIndex out i (f elem)) pre.length xs (pre ++ rest)
        = .ok (pre ++ xs.map f) := by
  induction xs with
  | nil =>
    intro pre rest h
    have hr : rest = [] := List.length_eq_zero.mp h
    simp [rangeLoop, hr]
  | cons x xs ih =>
    intro pre rest h
    cases rest with
    | nil => simp at h
    | cons r rest =>
      have hlen : rest.length = xs.length := by simpa using h
      have hstep := ih (pre ++ [f x]) rest hlen
      simp only [List.length_append, List.length_singleton] at hstep
      simp only [rangeLoop, assignIndex_append, hstep]
      simp

theorem Slice.len_eq_length_elems {α : Type} (s : Slice α) : s.len = s.elems.length := by
  cases s <;> rfl

/-- The whole loop, from a freshly made slice. -/
theorem rangeLoop_fresh {α : Type} (f : α → String) (s : Slice α) :
    rangeLoop (fun i elem out => assignIndex out i (f elem)) 0 s.elems (makeStrings s.len)
      = .ok (s.elems.map f) := by
  have h := rangeLoop_assign f s.elems [] (makeStrings s.len)
    (by simp [makeStrings, Slice.len_eq_length_elems])
  simpa using h

theorem grantToStringSlice_eq (gt : Slice GrantType) :
    grantToStringSlice gt = .ok (some (gt.elems.map GrantType.val)) := by
  unfold grantToStringSlice
  simp only [rangeLoop_fresh GrantType.val gt]

theorem responseToStringSlice_eq (rt : Slice ResponseType) :
    responseToStringSlice rt = .ok (some (rt.elems.map ResponseType.val)) := by
  unfold responseToStringSlice
  simp only [rangeLoop_fresh ResponseType.val rt]

/-- Closed form of the projection: it never panics, and the payload is the
record of the copied fields and the two mapped sequences. -/
theorem ToOAuth2ClientJSON_eq (c : OAuth2Client) :
    ToOAuth2ClientJSON c = .ok {
      Name := c.ObjectMeta.Name
      ClientID := c.Status.ClientID
      GrantTypes := some (c.Spec.GrantTypes.elems.map GrantType.val)
      ResponseTypes := some (c.Spec.ResponseTypes.elems.map ResponseType.val)
      Scope := c.Spec.Scope } := by
  unfold ToOAuth2ClientJSON
  simp only [grantToStringSlice_eq, responseToStringSlice_eq, OAuth2Client.Name]

theorem Slice.index_map_of_index {α : Type} (f : α → String) (s : Slice α) (i : Nat) (x : α)
    (h : s.index i = some x) : Slice.index (some (s.elems.map f)) i = some (f x) := by
  unfold Slice.index at h ⊢
  simp only [Slice.elems, List.get?_eq_getElem?, List.getElem?_map] at h ⊢
  rw [h]
  rfl

theorem Slice.index_of_lt {α : Type} (s : Slice α) (i : Nat) (h : i < s.len) :
    ∃ x, s.index i = some x := by
  rw [Slice.len_eq_length_elems] at h
  exact ⟨s.elems[i], by simp [Slice.index, List.getElem?_eq_getElem h]⟩

/-! ## Claims about the projection -/

/-- C1: the projection returns a payload whose GrantTypes has the length of
Spec.GrantTypes, holds at every index in range the underlying string of the input
element at that index, and is the element-wise map of the string conversion over
the input (no reordering, dropping or deduplication), for inputs of any length. -/
theorem C1_grantTypes_elementwise (c : OAuth2Client) :
    ∃ p, ToOAuth2ClientJSON c = .ok p ∧
      p.GrantTypes.len = c.Spec.GrantTypes.len ∧
      (∀ i, i < c.Spec.GrantTypes.len →
        ∃ g, c.Spec.GrantTypes.index i = some g ∧ p.GrantTypes.index i = some g.val) ∧
      p.GrantTypes.elems = c.Spec.GrantTypes.elems.map GrantType.val := by
  refine ⟨_, ToOAuth2ClientJSON_eq c, ?_, ?_, rfl⟩
  · show (List.map _ _).length = _
    rw [List.length_map, Slice.len_eq_length_elems]
  · intro i hi
    obtain ⟨g, hg⟩ := Slice.index_of_lt c.Spec.GrantTypes i hi
    exact ⟨g, hg, Slice.index_map_of_index GrantType.val _ i g hg⟩

/-- C2: the projection returns a payload whose ResponseTypes has the length of
Spec.ResponseTypes, holds at every index in range the underlying string of the
input element at that index, and is the element-wise map of the string
conversion over the input. -/
theorem C2_responseTypes_elementwise (c : OAuth2Client) :
    ∃ p, ToOAuth2ClientJSON c = .ok p ∧
      p.ResponseTypes.len = c.Spec.ResponseTypes.len ∧
      (∀ i, i < c.Spec.ResponseTypes.len →
        ∃ r, c.Spec.ResponseTypes.index i = some r ∧ p.ResponseTypes.index i = some r.val) ∧
      p.ResponseTypes.elems = c.Spec.ResponseTypes.elems.map ResponseType.val := by
  refine ⟨_, ToOAuth2ClientJSON_eq c, ?_, ?_, rfl⟩
  · show (List.map _ _).length = _
    rw [List.length_map, Slice.len_eq_length_elems]
  · intro i hi
    obtain ⟨r, hr⟩ := Slice.index_of_lt c.Spec.ResponseTypes i hi
    exact ⟨r, hr, Slice.index_map_of_index ResponseType.val _ i r hr⟩

/-- C3: when Spec.ResponseTypes is the nil slice, the payload's ResponseTypes is
a non-nil slice of length 0. -/
theorem C3_absent_responseTypes_empty (c : OAuth2Client)
    (h : c.Spec.ResponseTypes = none) :
    ∃ p, ToOAuth2ClientJSON c = .ok p ∧
      p.ResponseTypes = some [] ∧ p.ResponseTypes.isNil = false ∧ p.ResponseTypes.len = 0 := by
  refine ⟨_, ToOAuth2ClientJSON_eq c, ?_, rfl, ?_⟩ <;> simp [h, Slice.elems, Slice.len]

theorem C3_absent_responseTypes_empty_witness :
    exampleUnregistered.Spec.ResponseTypes = none ∧
    ∃ p, ToOAuth2ClientJSON exampleUnregistered = .ok p ∧
      p.ResponseTypes = some [] ∧ p.ResponseTypes.isNil = false ∧ p.ResponseTypes.len = 0 :=
  ⟨rfl, C3_absent_responseTypes_empty exampleUnregistered rfl⟩

/-- C4: the payload's ClientID is Status.ClientID as an optional value: present
exactly when Status.ClientID is, and any identifier it carries is the one held
in Status. -/
theorem C4_clientID_from_status (c : OAuth2Client) :
    ∃ p, ToOAuth2ClientJSON c = .ok p ∧
      p.ClientID = c.Status.ClientID ∧
      (p.ClientID.isSome = c.Status.ClientID.isSome) ∧
      (∀ s, p.ClientID = some s → c.Status.ClientID = some s) :=
  ⟨_, ToOAuth2ClientJSON_eq c, rfl, rfl, fun _ hs => hs⟩

/-- C5: of two envelopes, one with Status.ClientID nil and the other with
Status.ClientID pointing to the empty string, the payloads differ: the first has
ClientID nil, the second has ClientID set to the empty string. This holds
whatever the other fields are, so in particular when they are equal. -/
theorem C5_unset_clientID_distinct_from_empty (c1 c2 : OAuth2Client)
    (h1 : c1.Status.ClientID = none) (h2 : c2.Status.ClientID = some "") :
    ∃ p1 p2, ToOAuth2ClientJSON c1 = .ok p1 ∧ ToOAuth2ClientJSON c2 = .ok p2 ∧
      p1 ≠ p2 ∧ p1.ClientID = none ∧ p2.ClientID = some "" := by
  refine ⟨_, _, ToOAuth2ClientJSON_eq c1, ToOAuth2ClientJSON_eq c2, ?_, h1, h2⟩
  intro heq
  have hid := congrArg OAuth2ClientJSON.ClientID heq
  simp [h1, h2] at hid

theorem C5_unset_clientID_distinct_from_empty_witness :
    (exampleUnregistered.Status.ClientID = none ∧
      exampleEmptyID.Status.ClientID = some "" ∧
      exampleEmptyID.TypeMeta = exampleUnregistered.TypeMeta ∧
      exampleEmptyID.ObjectMeta = exampleUnregistered.ObjectMeta ∧
      exampleEmptyID.Spec = exampleUnregistered.Spec ∧
      exampleEmptyID.Status.Secret = exampleUnregistered.Status.Secret ∧
      exampleEmptyID.Status.ObservedGeneration
        = exampleUnregistered.Status.ObservedGeneration) ∧
    ∃ p1 p2, ToOAuth2ClientJSON exampleUnregistered = .ok p1 ∧
      ToOAuth2ClientJSON exampleEmptyID = .ok p2 ∧
      p1 ≠ p2 ∧ p1.ClientID = none ∧ p2.ClientID = some "" :=
  ⟨⟨rfl, rfl, rfl, rfl, rfl, rfl, rfl⟩,
    C5_unset_clientID_distinct_from_empty exampleUnregistered exampleEmptyID rfl rfl⟩

/-- C6: the payload's Scope is exactly Spec.Scope, for every string: setting the
scope of any envelope to any string `s` yields a payload whose Scope is `s`. -/
theorem C6_scope_verbatim (c : OAuth2Client) (s : String) :
    (∃ p, ToOAuth2ClientJSON c = .ok p ∧ p.Scope = c.Spec.Scope) ∧
    (∃ q, ToOAuth2ClientJSON { c with Spec := { c.Spec with Scope := s } } = .ok q ∧
      q.Scope = s) :=
  ⟨⟨_, ToOAuth2ClientJSON_eq c, rfl⟩, ⟨_, ToOAuth2ClientJSON_eq _, rfl⟩⟩

/-- C7: the payload's Name is the envelope's ObjectMeta.Name, and it is the same
for any other type and object metadata that carry the same name (namespace,
generation, labels and the rest do not matter). -/
theorem C7_name_from_identity (c : OAuth2Client) :
    ∃ p, ToOAuth2ClientJSON c = .ok p ∧
      p.Name = c.ObjectMeta.Name ∧
      ∀ (tm : TypeMeta) (om : ObjectMeta), om.Name = c.ObjectMeta.Name →
        ∃ q, ToOAuth2ClientJSON { c with TypeMeta := tm, ObjectMeta := om } = .ok q ∧
          q.Name = p.Name :=
  ⟨_, ToOAuth2ClientJSON_eq c, rfl, fun _ _ hn => ⟨_, ToOAuth2ClientJSON_eq _, hn⟩⟩

/-- C8: the projection has no error path: for every envelope it returns a
payload, and every element of Spec.GrantTypes or Spec.ResponseTypes that is
outside the enumerated vocabulary appears at the same index of the output as the
identical raw string. -/
theorem C8_total_and_raw_passthrough (c : OAuth2Client) :
    ∃ p, ToOAuth2ClientJSON c = .ok p ∧
      (∀ i g, c.Spec.GrantTypes.index i = some g → g.val ∉ grantTypeEnum →
        p.GrantTypes.index i = some g.val) ∧
      (∀ i r, c.Spec.ResponseTypes.index i = some r → r.val ∉ responseTypeEnum →
        p.ResponseTypes.index i = some r.val) :=
  ⟨_, ToOAuth2ClientJSON_eq c,
    fun i g hg _ => Slice.index_map_of_index GrantType.val _ i g hg,
    fun i r hr _ => Slice.index_map_of_index ResponseType.val _ i r hr⟩


/-! ## Claims relating two envelopes -/

theorem map_val_injective_grant (xs ys : List GrantType)
    (h : xs.map GrantType.val = ys.map GrantType.val) : xs = ys := by
  have hinj : Function.Injective GrantType.val := by
    intro a b hab
    cases a
    cases b
    simp only [GrantType.mk.injEq]
    exact hab
  exact List.map_injective_iff.mpr hinj h

theorem map_val_injective_response (xs ys : List ResponseType)
    (h : xs.map ResponseType.val = ys.map ResponseType.val) : xs = ys := by
  have hinj : Function.Injective ResponseType.val := by
    intro a b hab
    cases a
    cases b
    simp only [ResponseType.mk.injEq]
    exact hab
  exact List.map_injective_iff.mpr hinj h

/-- C12: the projection collapses nil and present-but-empty on both sequence
fields: an envelope with Spec.ResponseTypes nil and the same envelope with it
non-nil and empty project to the same payload, whose ResponseTypes is a non-nil
empty slice; likewise for Spec.GrantTypes. -/
theorem C12_nil_and_empty_collapse (c : OAuth2Client) :
    (∃ p, ToOAuth2ClientJSON { c with Spec := { c.Spec with ResponseTypes := none } } = .ok p ∧
        ToOAuth2ClientJSON { c with Spec := { c.Spec with ResponseTypes := some [] } } = .ok p ∧
        p.ResponseTypes = some []) ∧
    (∃ p, ToOAuth2ClientJSON { c with Spec := { c.Spec with GrantTypes := none } } = .ok p ∧
        ToOAuth2ClientJSON { c with Spec := { c.Spec with GrantTypes := some [] } } = .ok p ∧
        p.GrantTypes = some []) :=
  ⟨⟨_, ToOAuth2ClientJSON_eq _, ToOAuth2ClientJSON_eq _, rfl⟩,
    ⟨_, ToOAuth2ClientJSON_eq _, ToOAuth2ClientJSON_eq _, rfl⟩⟩

/-- C13: the payload depends only on Name, Status.ClientID, Spec.GrantTypes,
Spec.ResponseTypes and Spec.Scope: two envelopes that agree on these five
project to the same payload, whatever their secret reference, observed
generation, namespace and other metadata are. -/
theorem C13_payload_depends_on_five_inputs (c1 c2 : OAuth2Client)
    (hn : c1.Name = c2.Name) (hid : c1.Status.ClientID = c2.Status.ClientID)
    (hg : c1.Spec.GrantTypes = c2.Spec.GrantTypes)
    (hr : c1.Spec.ResponseTypes = c2.Spec.ResponseTypes)
    (hs : c1.Spec.Scope = c2.Spec.Scope) :
    ∃ p, ToOAuth2ClientJSON c1 = .ok p ∧ ToOAuth2ClientJSON c2 = .ok p := by
  refine ⟨_, ToOAuth2ClientJSON_eq c1, ?_⟩
  rw [ToOAuth2ClientJSON_eq c2]
  simp only [OAuth2Client.Name] at hn
  rw [hn, hid, hg, hr, hs]

theorem C13_payload_depends_on_five_inputs_witness :
    (exampleUnregistered.Status.Secret ≠ exampleOtherMetadata.Status.Secret ∧
      exampleUnregistered.Status.ObservedGeneration
        ≠ exampleOtherMetadata.Status.ObservedGeneration ∧
      exampleUnregistered.ObjectMeta.Namespace ≠ exampleOtherMetadata.ObjectMeta.Namespace ∧
      exampleUnregistered.ObjectMeta.Generation
        ≠ exampleOtherMetadata.ObjectMeta.Generation) ∧
    ∃ p, ToOAuth2ClientJSON exampleUnregistered = .ok p ∧
      ToOAuth2ClientJSON exampleOtherMetadata = .ok p :=
  ⟨⟨by decide, by decide, by decide, by decide⟩,
    C13_payload_depends_on_five_inputs exampleUnregistered exampleOtherMetadata
      rfl rfl rfl rfl rfl⟩

/-- C14: the projection loses nothing of what it forwards: two envelopes with
equal payloads have the same Name, the same Status.ClientID, the same Spec.Scope
and the same elements of Spec.GrantTypes and of Spec.ResponseTypes (a nil slice
counting as the empty one); and wrapping each projected string back as a
GrantType or ResponseType recovers the elements of the input. -/
theorem C14_projection_injective_on_forwarded (c1 c2 : OAuth2Client)
    (h : ToOAuth2ClientJSON c1 = ToOAuth2ClientJSON c2) :
    c1.Name = c2.Name ∧ c1.Status.ClientID = c2.Status.ClientID ∧
    c1.Spec.Scope = c2.Spec.Scope ∧
    c1.Spec.GrantTypes.elems = c2.Spec.GrantTypes.elems ∧
    c1.Spec.ResponseTypes.elems = c2.Spec.ResponseTypes.elems ∧
    ∃ p, ToOAuth2ClientJSON c1 = .ok p ∧
      p.GrantTypes.elems.map GrantType.mk = c1.Spec.GrantTypes.elems ∧
      p.ResponseTypes.elems.map ResponseType.mk = c1.Spec.ResponseTypes.elems := by
  rw [ToOAuth2ClientJSON_eq c1, ToOAuth2ClientJSON_eq c2] at h
  have hp := Except.ok.inj h
  simp only [OAuth2ClientJSON.mk.injEq, Option.some.injEq] at hp
  obtain ⟨hn, hid, hg, hr, hs⟩ := hp
  refine ⟨hn, hid, hs, map_val_injective_grant _ _ hg, map_val_injective_response _ _ hr,
    _, ToOAuth2ClientJSON_eq c1, ?_, ?_⟩
  · simp [Slice.elems, Function.comp_def]
  · simp [Slice.elems, Function.comp_def]

theorem C14_projection_injective_on_forwarded_witness :
    (exampleUnregistered.Spec.ResponseTypes ≠ exampleEmptyResponses.Spec.ResponseTypes ∧
      ToOAuth2ClientJSON exampleUnregistered = ToOAuth2ClientJSON exampleEmptyResponses) ∧
    (exampleUnregistered.Name = exampleEmptyResponses.Name ∧
      exampleUnregistered.Status.ClientID = exampleEmptyResponses.Status.ClientID ∧
      exampleUnregistered.Spec.Scope = exampleEmptyResponses.Spec.Scope ∧
      exampleUnregistered.Spec.GrantTypes.elems = exampleEmptyResponses.Spec.GrantTypes.elems ∧
      exampleUnregistered.Spec.ResponseTypes.elems
        = exampleEmptyResponses.Spec.ResponseTypes.elems ∧
      ∃ p, ToOAuth2ClientJSON exampleUnregistered = .ok p ∧
        p.GrantTypes.elems.map GrantType.mk = exampleUnregistered.Spec.GrantTypes.elems ∧
        p.ResponseTypes.elems.map ResponseType.mk
          = exampleUnregistered.Spec.ResponseTypes.elems) :=
  ⟨⟨by decide, rfl⟩,
    C14_projection_injective_on_forwarded exampleUnregistered exampleEmptyResponses rfl⟩

/-! ## The scope pattern: what it matches and what the schema accepts -/

/-- A character class matches exactly the one-character strings over its
characters. -/
theorem mem_charClass (cs : List Char) (w : List Char) :
    w ∈ (charClass cs).matches' ↔ ∃ c ∈ cs, w = [c] := by
  induction cs with
  | nil =>
    simp only [charClass, RegularExpression.matches'_zero, List.not_mem_nil, false_and,
      exists_false, iff_false]
    exact Language.not_mem_zero w
  | cons c cs ih =>
    simp only [charClass, RegularExpression.matches'_add, Language.mem_add, ih,
      RegularExpression.matches'_char, List.mem_cons, exists_eq_or_imp]
    rfl

/-- The language of the pattern, in terms of the languages of its two classes. -/
theorem scopePattern_matches :
    scopePattern.matches' =
      (((charClass scopeTokenChars).matches' * KStar.kstar (charClass scopeTokenChars).matches')
          * ((charClass whitespaceChars).matches' + 1))
        * KStar.kstar
            (((charClass scopeTokenChars).matches'
                * KStar.kstar (charClass scopeTokenChars).matches')
              * ((charClass whitespaceChars).matches' + 1)) := by
  simp only [scopePattern, oneOrMore, zeroOrOne, RegularExpression.matches'_mul,
    RegularExpression.matches'_add, RegularExpression.matches'_star,
    RegularExpression.matches'_epsilon]

/-- Every string of a starred language is made of characters of its parts. -/
theorem chars_of_mem_kstar (Q : Char → Prop) (l : Language Char)
    (hl : ∀ y ∈ l, ∀ d ∈ y, Q d) : ∀ x ∈ KStar.kstar l, ∀ d ∈ x, Q d := by
  intro x hx d hd
  obtain ⟨parts, rfl, hparts⟩ := Language.mem_kstar.mp hx
  obtain ⟨y, hy, hdy⟩ := List.mem_flatten.mp hd
  exact hl y (hparts y hy) d hdy

/-- One round of the group `[a-zA-Z0-9\.\*]+\s?` starts with a token character
and holds only token characters and whitespace. -/
theorem scopeGroup_shape (g : List Char)
    (hg : g ∈ ((charClass scopeTokenChars).matches'
        * KStar.kstar (charClass scopeTokenChars).matches')
          * ((charClass whitespaceChars).matches' + 1)) :
    ∃ c ∈ scopeTokenChars, ∃ rest, g = c :: rest ∧
      ∀ d ∈ rest, d ∈ scopeTokenChars ∨ d ∈ whitespaceChars := by
  obtain ⟨tt, htt, s, hs, rfl⟩ := Language.mem_mul.mp hg
  obtain ⟨t, ht, ts, hts, rfl⟩ := Language.mem_mul.mp htt
  obtain ⟨c, hc, rfl⟩ := (mem_charClass _ _).mp ht
  have hts1 : ∀ d ∈ ts, d ∈ scopeTokenChars ∨ d ∈ whitespaceChars := by
    refine chars_of_mem_kstar _ _ ?_ ts hts
    intro y hy d hd
    obtain ⟨e, he, rfl⟩ := (mem_charClass _ _).mp hy
    rw [List.mem_singleton] at hd
    exact Or.inl (hd ▸ he)
  have hs1 : ∀ d ∈ s, d ∈ scopeTokenChars ∨ d ∈ whitespaceChars := by
    intro d hd
    rcases (Language.mem_add _ _ _).mp hs with hw | he
    · obtain ⟨e, he, rfl⟩ := (mem_charClass _ _).mp hw
      rw [List.mem_singleton] at hd
      exact Or.inr (hd ▸ he)
    · rw [(Language.mem_one _).mp he] at hd
      exact absurd hd (List.not_mem_nil d)
  refine ⟨c, hc, ts ++ s, by simp, ?_⟩
  intro d hd
  rcases List.mem_append.mp hd with h1 | h2
  · exact hts1 d h1
  · exact hs1 d h2

/-- What the pattern matches in full: a string that starts with a token
character and holds only token characters and whitespace. -/
theorem scopePattern_shape (w : List Char) (hw : w ∈ scopePattern.matches') :
    ∃ c ∈ scopeTokenChars, ∃ rest, w = c :: rest ∧
      ∀ d ∈ rest, d ∈ scopeTokenChars ∨ d ∈ whitespaceChars := by
  rw [scopePattern_matches] at hw
  obtain ⟨g, hg, k, hk, rfl⟩ := Language.mem_mul.mp hw
  obtain ⟨c, hc, rest, rfl, hrest⟩ := scopeGroup_shape g hg
  have hk1 : ∀ d ∈ k, d ∈ scopeTokenChars ∨ d ∈ whitespaceChars := by
    refine chars_of_mem_kstar _ _ ?_ k hk
    intro y hy d hd
    obtain ⟨e, he, r, rfl, hr⟩ := scopeGroup_shape y hy
    rcases List.mem_cons.mp hd with h1 | h2
    · exact Or.inl (h1 ▸ he)
    · exact hr d h2
  refine ⟨c, hc, rest ++ k, by simp, ?_⟩
  intro d hd
  rcases List.mem_append.mp hd with h1 | h2
  · exact hrest d h1
  · exact hk1 d h2

/-- A single token character is matched in full by the pattern. -/
theorem scopePattern_single (c : Char) (hc : c ∈ scopeTokenChars) :
    [c] ∈ scopePattern.matches' := by
  rw [scopePattern_matches]
  have ht : [c] ∈ (charClass scopeTokenChars).matches' := (mem_charClass _ _).mpr ⟨c, hc, rfl⟩
  have h1 := Language.append_mem_mul ht
    (Language.nil_mem_kstar (charClass scopeTokenChars).matches')
  have h2 := Language.append_mem_mul h1
    ((Language.mem_add (charClass whitespaceChars).matches' 1 []).mpr
      (Or.inr Language.nil_mem_one))
  have h3 := Language.append_mem_mul h2
    (Language.nil_mem_kstar
      (((charClass scopeTokenChars).matches'
          * KStar.kstar (charClass scopeTokenChars).matches')
        * ((charClass whitespaceChars).matches' + 1)))
  simpa using h3

/-- Matched against the whole string, the pattern accepts only non-empty strings
of token characters and whitespace. -/
theorem scopeMatchesWhole_chars (s : String) (h : scopeMatchesWhole s = true) :
    s.toList ≠ [] ∧ ∀ d ∈ s.toList, d ∈ scopeTokenChars ∨ d ∈ whitespaceChars := by
  have hw := (RegularExpression.rmatch_iff_matches' scopePattern s.toList).mp h
  obtain ⟨c, hc, rest, heq, hrest⟩ := scopePattern_shape _ hw
  rw [heq]
  refine ⟨List.cons_ne_nil c rest, ?_⟩
  intro d hd
  rcases List.mem_cons.mp hd with h1 | h2
  · exact Or.inl (h1 ▸ hc)
  · exact hrest d h2

/-- What the schema accepts, exactly: the strings that hold at least one token
character. -/
theorem scopeAccepted_iff (s : String) :
    scopeAccepted s = true ↔ ∃ c ∈ s.toList, c ∈ scopeTokenChars := by
  unfold scopeAccepted
  simp only [List.any_eq_true, List.mem_tails, List.mem_inits]
  constructor
  · rintro ⟨t, ht, m, hm, hmatch⟩
    have hw := (RegularExpression.rmatch_iff_matches' scopePattern m).mp hmatch
    obtain ⟨c, hc, rest, rfl, _⟩ := scopePattern_shape _ hw
    exact ⟨c, ht.subset (hm.subset (List.mem_cons_self c rest)), hc⟩
  · rintro ⟨c, hcs, hc⟩
    obtain ⟨pre, post, hsplit⟩ := List.append_of_mem hcs
    refine ⟨c :: post, ⟨pre, hsplit.symm⟩, [c], ⟨post, rfl⟩, ?_⟩
    exact (RegularExpression.rmatch_iff_matches' scopePattern [c]).mpr
      (scopePattern_single c hc)

/-- C11: the claim fails on the pattern as the schema applies it. The scope
`a!` is accepted, because the unanchored pattern finds the match `a` in it,
although `!` is neither a character of `[A-Za-z0-9.*]` nor whitespace; matched
against the whole string, as the claim reads the pattern, `a!` is rejected. -/
theorem C11_scope_pattern_accepts_foreign_character :
    scopeAccepted "a!" = true ∧
    ¬ (∀ d ∈ "a!".toList, d ∈ scopeTokenChars ∨ d ∈ whitespaceChars) ∧
    scopeMatchesWhole "a!" = false := by
  have hbad : ¬ (∀ d ∈ "a!".toList, d ∈ scopeTokenChars ∨ d ∈ whitespaceChars) := by
    intro hall
    have h := hall '!' (by decide)
    revert h
    decide
  refine ⟨(scopeAccepted_iff "a!").mpr ⟨'a', by decide, by decide⟩, hbad, ?_⟩
  cases hm : scopeMatchesWhole "a!" with
  | false => rfl
  | true => exact absurd (scopeMatchesWhole_chars "a!" hm).2 hbad

/-! ## Memory-level lemmas -/

namespace Mem

theorem sliceElems_length (h : Heap) (s : SliceHeader)
    (hv : h.validSlice (some s) = true) : (h.sliceElems s).length = s.len := by
  simp only [Heap.validSlice, Bool.and_eq_true, decide_eq_true_eq] at hv
  simp only [Heap.sliceElems, List.length_take, List.length_drop]
  omega

/-- Reading element `i` of a well-formed slice of `h` after one more array has
been allocated gives the `i`-th element the slice had in `h`. -/
theorem readElem_extended (h : Heap) (s : SliceHeader) (out : List String) (i : Nat)
    (hv : h.validSlice (some s) = true) (hi : i < s.len) :
    ∃ v, (h.sliceElems s).get? i = some v ∧
      Heap.readElem { h with arrays := h.arrays ++ [out] } s i = .ok v := by
  simp only [Heap.validSlice, Bool.and_eq_true, decide_eq_true_eq] at hv
  obtain ⟨harr, hlen⟩ := hv
  have hget : h.arrays.getD s.arr [] = h.arrays[s.arr] := by
    simp [List.getD_eq_getElem?_getD, List.getElem?_eq_getElem harr]
  rw [hget] at hlen
  have hidx : s.off + i < h.arrays[s.arr].length := by omega
  refine ⟨h.arrays[s.arr][s.off + i], ?_, ?_⟩
  · simp only [Heap.sliceElems, hget, List.get?_eq_getElem?]
    rw [List.getElem?_take_of_lt hi, List.getElem?_drop, List.getElem?_eq_getElem hidx]
  · simp only [Heap.readElem, if_pos hi, List.get?_eq_getElem?]
    rw [List.getElem?_append_left harr, List.getElem?_eq_getElem harr]
    simp only [List.getElem?_eq_getElem hidx]

/-- Writing through the header of the newest array at the index just after
`pre` replaces that element and nothing else. -/
theorem writeElem_newest (h : Heap) (pre rest : List String) (r v : String) (n : Nat)
    (hn : pre.length < n) :
    Heap.writeElem { h with arrays := h.arrays ++ [pre ++ r :: rest] }
        { arr := h.arrays.length, off := 0, len := n, cap := n } pre.length v
      = .ok { h with arrays := h.arrays ++ [(pre ++ [v]) ++ rest] } := by
  simp only [Heap.writeElem, if_pos hn, List.get?_eq_getElem?, Nat.zero_add]
  rw [List.getElem?_append_right (Nat.le_refl _)]
  simp [List.set_append]

/-- Loop invariant on the heap: with `pre` already written to the output array
and `count` iterations left, the loop ends without a panic, leaves every older
array as it was and completes the output array with the remaining elements of
the input slice. -/
theorem rangeFrom_copy (h : Heap) (s : SliceHeader) (n : Nat)
    (hv : h.validSlice (some s) = true) :
    ∀ (count : Nat) (pre rest : List String), rest.length = count →
      pre.length + count = s.len → pre = (h.sliceElems s).take pre.length → s.len = n →
      rangeFrom
          (fun i elem hp =>
            hp.writeElem { arr := h.arrays.length, off := 0, len := n, cap := n } i elem)
          s pre.length count { h with arrays := h.arrays ++ [pre ++ rest] }
        = .ok { h with arrays := h.arrays ++ [h.sliceElems s] } := by
  intro count
  induction count with
  | zero =>
    intro pre rest hrest hsum hpre _
    have hr : rest = [] := List.length_eq_zero.mp hrest
    have hlen := sliceElems_length h s hv
    have hfull : (h.sliceElems s).take pre.length = h.sliceElems s :=
      List.take_of_length_le (by omega)
    simp only [rangeFrom, hr, List.append_nil]
    rw [hpre, hfull]
  | succ count ih =>
    intro pre rest hrest hsum hpre hn
    cases rest with
    | nil => simp at hrest
    | cons r rest =>
      have hi : pre.length < s.len := by omega
      obtain ⟨v, hv1, hv2⟩ := readElem_extended h s (pre ++ r :: rest) pre.length hv hi
      have hw := writeElem_newest h pre rest r v n (by omega)
      have hpre1 : pre ++ [v] = (h.sliceElems s).take (pre ++ [v]).length := by
        rw [List.get?_eq_getElem?] at hv1
        simp only [List.length_append, List.length_singleton]
        rw [List.take_succ, hv1, ← hpre]
        rfl
      have hstep := ih (pre ++ [v]) rest (by simpa using hrest)
        (by simp only [List.length_append, List.length_singleton]; omega) hpre1 hn
      simp only [List.length_append, List.length_singleton] at hstep
      simp only [rangeFrom, hv2, hw, hstep]

/-- The elements a slice value holds: none for nil. -/
theorem viewSlice_elems_length (h : Heap) (s : Option SliceHeader)
    (hv : h.validSlice s = true) : (h.viewSlice s).elems.length = len s := by
  cases s with
  | none => rfl
  | some s => exact sliceElems_length h s hv

/-- The copy loop started on a freshly made output: it ends without a panic and
the new array holds the elements of the input. -/
theorem rangeLoop_copy (h : Heap) (s : Option SliceHeader)
    (hv : h.validSlice s = true) :
    rangeLoop
        (fun i elem hp =>
          hp.writeElem { arr := h.arrays.length, off := 0, len := len s, cap := len s } i elem)
        s { h with arrays := h.arrays ++ [List.replicate (len s) ""] }
      = .ok { h with arrays := h.arrays ++ [(h.viewSlice s).elems] } := by
  cases s with
  | none => rfl
  | some s =>
    have h0 := rangeFrom_copy h s s.len hv s.len [] (List.replicate s.len "")
      (by simp) (by simp) (by simp) rfl
    simpa [rangeLoop, len, Heap.viewSlice, Slice.elems] using h0

theorem grantToStringSlice_heap (h : Heap) (gt : Option SliceHeader)
    (hv : h.validSlice gt = true) :
    grantToStringSlice h gt
      = .ok ({ h with arrays := h.arrays ++ [(h.viewSlice gt).elems] },
             some { arr := h.arrays.length, off := 0, len := len gt, cap := len gt }) := by
  simp only [grantToStringSlice, Heap.makeStrings, rangeLoop_copy h gt hv]

theorem responseToStringSlice_heap (h : Heap) (rt : Option SliceHeader)
    (hv : h.validSlice rt = true) :
    responseToStringSlice h rt
      = .ok ({ h with arrays := h.arrays ++ [(h.viewSlice rt).elems] },
             some { arr := h.arrays.length, off := 0, len := len rt, cap := len rt }) := by
  simp only [responseToStringSlice, Heap.makeStrings, rangeLoop_copy h rt hv]

/-! ### Frame: allocation leaves older references as they were -/

theorem getD_of_extend (xs ys : List (List String)) (k : Nat) (hp : xs <+: ys)
    (hk : k < xs.length) : ys.getD k [] = xs.getD k [] := by
  obtain ⟨extra, rfl⟩ := hp
  simp [List.getD_eq_getElem?_getD, List.getElem?_append_left hk]

theorem validSlice_of_extend (h h1 : Heap) (s : Option SliceHeader)
    (hp : h.arrays <+: h1.arrays) (hv : h.validSlice s = true) :
    h1.validSlice s = true := by
  cases s with
  | none => rfl
  | some s =>
    simp only [Heap.validSlice, Bool.and_eq_true, decide_eq_true_eq] at hv ⊢
    rw [getD_of_extend _ _ _ hp hv.1]
    exact ⟨Nat.lt_of_lt_of_le hv.1 hp.length_le, hv.2⟩

theorem viewSlice_of_extend (h h1 : Heap) (s : Option SliceHeader)
    (hp : h.arrays <+: h1.arrays) (hv : h.validSlice s = true) :
    h1.viewSlice s = h.viewSlice s := by
  cases s with
  | none => rfl
  | some s =>
    simp only [Heap.validSlice, Bool.and_eq_true, decide_eq_true_eq] at hv
    simp only [Heap.viewSlice, Heap.sliceElems, getD_of_extend _ _ _ hp hv.1]

theorem viewPtr_of_strings (h h1 : Heap) (p : Option Nat) (hs : h1.strings = h.strings) :
    h1.viewPtr p = h.viewPtr p := by
  cases p with
  | none => rfl
  | some a => simp only [Heap.viewPtr, hs]

theorem viewClient_of_extend (h h1 : Heap) (c : OAuth2Client)
    (hp : h.arrays <+: h1.arrays) (hs : h1.strings = h.strings)
    (hg : h.validSlice c.Spec.GrantTypes = true)
    (hr : h.validSlice c.Spec.ResponseTypes = true) :
    h1.viewClient c = h.viewClient c := by
  simp only [Heap.viewClient, viewSlice_of_extend h h1 _ hp hg,
    viewSlice_of_extend h h1 _ hp hr, viewPtr_of_strings h h1 _ hs]

theorem viewPayload_of_extend (h h1 : Heap) (p : OAuth2ClientJSON)
    (hp : h.arrays <+: h1.arrays) (hs : h1.strings = h.strings)
    (hg : h.validSlice p.GrantTypes = true)
    (hr : h.validSlice p.ResponseTypes = true) :
    h1.viewPayload p = h.viewPayload p := by
  simp only [Heap.viewPayload, viewSlice_of_extend h h1 _ hp hg,
    viewSlice_of_extend h h1 _ hp hr, viewPtr_of_strings h h1 _ hs]

theorem validClient_iff (h : Heap) (a : Nat) :
    h.validClient a = true ↔
      ∃ c, h.clients.get? a = some c ∧
        h.validSlice c.Spec.GrantTypes = true ∧ h.validSlice c.Spec.ResponseTypes = true ∧
        h.validPtr c.Status.Secret = true ∧ h.validPtr c.Status.ClientID = true := by
  unfold Heap.validClient
  cases h.clients.get? a with
  | none => simp
  | some c => simp [and_assoc]

theorem validClient_of_extend (h h1 : Heap) (a : Nat)
    (hp : h.arrays <+: h1.arrays) (hs : h1.strings = h.strings)
    (hc : h1.clients = h.clients) (hv : h.validClient a = true) :
    h1.validClient a = true := by
  rw [validClient_iff] at hv ⊢
  obtain ⟨c, hget, hg, hr, hsec, hid⟩ := hv
  refine ⟨c, by rw [hc]; exact hget, validSlice_of_extend h h1 _ hp hg,
    validSlice_of_extend h h1 _ hp hr, ?_, ?_⟩
  · cases hsp : c.Status.Secret with
    | none => rfl
    | some k => simpa [Heap.validPtr, hsp, hs] using hsec
  · cases hsp : c.Status.ClientID with
    | none => rfl
    | some k => simpa [Heap.validPtr, hsp, hs] using hid

/-! ### The projection on the heap -/

/-- Closed form of the projection on the heap, for an envelope whose slices are
well formed: two arrays and one payload are allocated, nothing else changes. -/
theorem ToOAuth2ClientJSON_heap (h : Heap) (a : Nat) (c : OAuth2Client)
    (hc : h.clients.get? a = some c)
    (hg : h.validSlice c.Spec.GrantTypes = true)
    (hr : h.validSlice c.Spec.ResponseTypes = true) :
    ToOAuth2ClientJSON h (some a)
      = .ok ({ h with
                arrays := (h.arrays ++ [(h.viewSlice c.Spec.GrantTypes).elems])
                  ++ [(h.viewSlice c.Spec.ResponseTypes).elems]
                payloads := h.payloads ++ [{
                  Name := c.ObjectMeta.Name
                  ClientID := c.Status.ClientID
                  GrantTypes := some { arr := h.arrays.length, off := 0,
                                       len := len c.Spec.GrantTypes,
                                       cap := len c.Spec.GrantTypes }
                  ResponseTypes := some { arr := h.arrays.length + 1, off := 0,
                                          len := len c.Spec.ResponseTypes,
                                          cap := len c.Spec.ResponseTypes }
                  Scope := c.Spec.Scope }] },
             h.payloads.length) := by
  have hr1 := validSlice_of_extend h
    { h with arrays := h.arrays ++ [(h.viewSlice c.Spec.GrantTypes).elems] }
    c.Spec.ResponseTypes (List.prefix_append _ _) hr
  have hview := viewSlice_of_extend h
    { h with arrays := h.arrays ++ [(h.viewSlice c.Spec.GrantTypes).elems] }
    c.Spec.ResponseTypes (List.prefix_append _ _) hr
  have h2 := responseToStringSlice_heap _ c.Spec.ResponseTypes hr1
  rw [hview] at h2
  simp only [List.length_append, List.length_singleton] at h2
  simp only [ToOAuth2ClientJSON, Heap.loadClient, hc, grantToStringSlice_heap h _ hg, h2,
    OAuth2Client.Name]

theorem elems_map_mk_val_grant (s : Slice String) :
    (Slice.elems (s.map (List.map GrantType.mk))).map GrantType.val = s.elems := by
  cases s with
  | none => rfl
  | some xs => simp [Slice.elems, Function.comp_def]

theorem elems_map_mk_val_response (s : Slice String) :
    (Slice.elems (s.map (List.map ResponseType.mk))).map ResponseType.val = s.elems := by
  cases s with
  | none => rfl
  | some xs => simp [Slice.elems, Function.comp_def]

theorem getD_append_two_fst (xs : List (List String)) (g r : List String) :
    ((xs ++ [g]) ++ [r]).getD xs.length [] = g := by
  induction xs with
  | nil => rfl
  | cons x xs ih => simpa using ih

theorem getD_append_two_snd (xs : List (List String)) (g r : List String) :
    ((xs ++ [g]) ++ [r]).getD (xs.length + 1) [] = r := by
  induction xs with
  | nil => rfl
  | cons x xs ih => simpa using ih

/-- What a call does, for a well-formed envelope at address `a`: it ends without
a panic; envelopes and string variables are untouched; older arrays and payloads
are untouched (the heap only grows); and the new payload, whose slices are well
formed, has as its value the value-level projection of the envelope's value. -/
theorem ToOAuth2ClientJSON_effect (h : Heap) (a : Nat) (hv : h.validClient a = true) :
    ∃ c h1 p, h.clients.get? a = some c ∧
      ToOAuth2ClientJSON h (some a) = .ok (h1, h.payloads.length) ∧
      h1.clients = h.clients ∧ h1.strings = h.strings ∧
      h.arrays <+: h1.arrays ∧ h1.payloads = h.payloads ++ [p] ∧
      h1.validSlice p.GrantTypes = true ∧ h1.validSlice p.ResponseTypes = true ∧
      V1alpha1.ToOAuth2ClientJSON (h.viewClient c) = .ok (h1.viewPayload p) := by
  obtain ⟨c, hc, hg, hr, _, _⟩ := (validClient_iff h a).mp hv
  have hlg := viewSlice_elems_length h _ hg
  have hlr := viewSlice_elems_length h _ hr
  refine ⟨c, _, _, hc, ToOAuth2ClientJSON_heap h a c hc hg hr, rfl, rfl, ?_, rfl, ?_, ?_, ?_⟩
  · simp only [List.append_assoc]
    exact List.prefix_append _ _
  · simp only [Heap.validSlice, getD_append_two_fst, Bool.and_eq_true, decide_eq_true_eq,
      List.length_append, List.length_singleton]
    omega
  · simp only [Heap.validSlice, getD_append_two_snd, Bool.and_eq_true, decide_eq_true_eq,
      List.length_append, List.length_singleton]
    omega
  · rw [ToOAuth2ClientJSON_eq]
    simp only [Heap.viewClient, Heap.viewPayload, elems_map_mk_val_grant,
      elems_map_mk_val_response, Heap.viewSlice, Heap.sliceElems, getD_append_two_fst,
      getD_append_two_snd, List.drop_zero, ← hlg, ← hlr, List.take_length]
    congr 2

/-! ### Claims about the call as a whole -/

theorem payloadAt_last (h : Heap) (ps : List OAuth2ClientJSON) (p : OAuth2ClientJSON)
    (hp : h.payloads = ps ++ [p]) : h.payloadAt ps.length = some (h.viewPayload p) := by
  simp [Heap.payloadAt, hp]

theorem get?_before_last (ps : List OAuth2ClientJSON) (p q : OAuth2ClientJSON) :
    ((ps ++ [p]) ++ [q]).get? ps.length = some p := by
  induction ps with
  | nil => rfl
  | cons x xs ih => simpa using ih

theorem payloadAt_before_last (h : Heap) (ps : List OAuth2ClientJSON)
    (p q : OAuth2ClientJSON) (hp : h.payloads = (ps ++ [p]) ++ [q]) :
    h.payloadAt ps.length = some (h.viewPayload p) := by
  simp only [Heap.payloadAt, hp, get?_before_last, Option.map_some']

/-- C9: the projection is deterministic. Two calls in a row, on envelopes at
addresses `a` and `b` that are equal as values (in particular on the same
envelope, `b = a`), both return, and the two payloads, read in the final heap,
are equal field by field (Name, ClientID, GrantTypes, ResponseTypes, Scope);
the payload is the value-level projection of the envelope's value. -/
theorem C9_projection_deterministic (h : Heap) (a b : Nat)
    (ha : h.validClient a = true) (hb : h.validClient b = true)
    (hab : h.clientAt a = h.clientAt b) :
    ∃ h1 p1 h2 p2 j1 j2,
      ToOAuth2ClientJSON h (some a) = .ok (h1, p1) ∧
      ToOAuth2ClientJSON h1 (some b) = .ok (h2, p2) ∧
      h2.payloadAt p1 = some j1 ∧ h2.payloadAt p2 = some j2 ∧
      j1.Name = j2.Name ∧ j1.ClientID = j2.ClientID ∧ j1.GrantTypes = j2.GrantTypes ∧
      j1.ResponseTypes = j2.ResponseTypes ∧ j1.Scope = j2.Scope ∧
      ∃ v, h.clientAt a = some v ∧ V1alpha1.ToOAuth2ClientJSON v = .ok j1 := by
  obtain ⟨c, h1, p, hc, hrun1, hcl1, hs1, hpre1, hpay1, hvg1, hvr1, href1⟩ :=
    ToOAuth2ClientJSON_effect h a ha
  have hb1 := validClient_of_extend h h1 b hpre1 hs1 hcl1 hb
  obtain ⟨d, h2, q, hd, hrun2, _, hs2, hpre2, hpay2, _, _, href2⟩ :=
    ToOAuth2ClientJSON_effect h1 b hb1
  rw [hcl1] at hd
  obtain ⟨d0, hd0, hdg, hdr, _, _⟩ := (validClient_iff h b).mp hb
  have hdd : d0 = d := Option.some.inj (hd0.symm.trans hd)
  subst hdd
  have hview : h.viewClient c = h1.viewClient d0 := by
    rw [viewClient_of_extend h h1 d0 hpre1 hs1 hdg hdr]
    have := hab
    simp only [Heap.clientAt, hc, hd0, Option.map_some'] at this
    exact Option.some.inj this
  have hj : h1.viewPayload p = h2.viewPayload q := by
    have e := href1.symm.trans (hview ▸ href2)
    exact Except.ok.inj e
  have hp1 : h2.payloadAt h.payloads.length = some (h1.viewPayload p) := by
    rw [payloadAt_before_last h2 h.payloads p q (by rw [hpay2, hpay1]),
      viewPayload_of_extend h1 h2 p hpre2 hs2 hvg1 hvr1]
  have hp2 : h2.payloadAt h1.payloads.length = some (h2.viewPayload q) :=
    payloadAt_last h2 h1.payloads q hpay2
  refine ⟨h1, _, h2, _, _, _, hrun1, hrun2, hp1, hp2, ?_, ?_, ?_, ?_, ?_,
    h.viewClient c, by simp only [Heap.clientAt, hc, Option.map_some'], href1⟩ <;> rw [hj]

theorem C9_projection_deterministic_witness :
    (exampleHeap.validClient 0 = true ∧ exampleHeap.validClient 1 = true ∧
      exampleHeap.clientAt 0 = exampleHeap.clientAt 1) ∧
    ∃ h1 p1 h2 p2 j1 j2,
      ToOAuth2ClientJSON exampleHeap (some 0) = .ok (h1, p1) ∧
      ToOAuth2ClientJSON h1 (some 1) = .ok (h2, p2) ∧
      h2.payloadAt p1 = some j1 ∧ h2.payloadAt p2 = some j2 ∧
      j1.Name = j2.Name ∧ j1.ClientID = j2.ClientID ∧ j1.GrantTypes = j2.GrantTypes ∧
      j1.ResponseTypes = j2.ResponseTypes ∧ j1.Scope = j2.Scope ∧
      ∃ v, exampleHeap.clientAt 0 = some v ∧ V1alpha1.ToOAuth2ClientJSON v = .ok j1 :=
  ⟨⟨rfl, rfl, rfl⟩, C9_projection_deterministic exampleHeap 0 1 rfl rfl rfl⟩

/-- C10: the call only reads the envelope. For a well-formed envelope at address
`a` the call returns, and afterwards the stored struct at `a` (metadata, the two
slice headers, Scope, the two pointers, ObservedGeneration) is the one stored
before, every string variable and every array that existed before holds what it
held, and so the envelope's value (metadata, the elements of Spec.GrantTypes and
Spec.ResponseTypes, Spec.Scope, the strings Status.Secret and Status.ClientID
point to, Status.ObservedGeneration) is the same as before the call. -/
theorem C10_envelope_only_read (h : Heap) (a : Nat) (hv : h.validClient a = true) :
    ∃ h1 p, ToOAuth2ClientJSON h (some a) = .ok (h1, p) ∧
      h1.clients = h.clients ∧ h1.strings = h.strings ∧ h.arrays <+: h1.arrays ∧
      ∃ c v, h.clients.get? a = some c ∧ h1.clients.get? a = some c ∧
        h.clientAt a = some v ∧ h1.clientAt a = some v := by
  obtain ⟨c, h1, p, hc, hrun, hcl, hs, hpre, _, _, _, _⟩ := ToOAuth2ClientJSON_effect h a hv
  obtain ⟨c0, hc0, hg, hr, _, _⟩ := (validClient_iff h a).mp hv
  have hcc : c0 = c := Option.some.inj (hc0.symm.trans hc)
  subst hcc
  refine ⟨h1, _, hrun, hcl, hs, hpre, c0, h.viewClient c0, hc, by rw [hcl]; exact hc,
    by simp only [Heap.clientAt, hc, Option.map_some'], ?_⟩
  simp only [Heap.clientAt, hcl, hc, Option.map_some',
    viewClient_of_extend h h1 c0 hpre hs hg hr]

theorem C10_envelope_only_read_witness :
    exampleHeap.validClient 0 = true ∧
    ∃ h1 p, ToOAuth2ClientJSON exampleHeap (some 0) = .ok (h1, p) ∧
      h1.clients = exampleHeap.clients ∧ h1.strings = exampleHeap.strings ∧
      exampleHeap.arrays <+: h1.arrays ∧
      ∃ c v, exampleHeap.clients.get? 0 = some c ∧ h1.clients.get? 0 = some c ∧
        exampleHeap.clientAt 0 = some v ∧ h1.clientAt 0 = some v :=
  ⟨rfl, C10_envelope_only_read exampleHeap 0 rfl⟩

end Mem

end V1alpha1
